import Mathlib

/-!
Shallow embedding of the divisor arithmetic kernel in
ec-divisors-contest-src/src/divisor.rs.

Polynomials in evaluation form are lists of field values together with a
tracked degree bound.  A divisor A(x) - y B(x) is a pair of such tables
plus a shared modulus table holding the curve polynomial sampled at the
same points.  Rust panics (assert, debug assertion failures, out-of-bounds
indexing, and the unwrap inside the batched inversion) are modelled by
returning none.
-/

set_option maxRecDepth 4000
set_option linter.unusedSectionVars false
set_option linter.unusedVariables false

/-- Evaluation-form polynomial: values at sample points 0, 1, 2, ...
plus a tracked upper bound on the true degree.
Mirrors struct Evals in divisor.rs. -/
structure Evals (F : Type) where
  evals : List F
  degree : Nat
deriving DecidableEq

/-- Divisor of form f(x,y) = A(x) - y B(x); the modulus table holds
the curve polynomial used to substitute y^2.
Mirrors struct Divisor in divisor.rs (the Rc is modelled by value). -/
structure Divisor (F : Type) where
  a : Evals F
  b : Evals F
  modulus : Evals F
deriving DecidableEq

/-- Linear divisor in coefficient form: a = (slope, intercept) for the
degree-one A polynomial, b the constant B.  Mirrors struct SmallDivisor. -/
structure SmallDivisor (F : Type) where
  a : F × F
  b : F
deriving DecidableEq

namespace Spec2Proof

variable {F : Type} [Field F] [DecidableEq F]

/-- Degree bounds of a general product, from Divisor::new_degree. -/
def new_degree (self other : Divisor F) : Nat × Nat :=
  let a1 := self.a.degree
  let b1 := self.b.degree
  let a2 := other.a.degree
  let b2 := other.b.degree
  ((a1 + a2).max (3 + b1 + b2), (a1 + b2).max (a2 + b1))

/-- Per-sample body of the general multiplication loop in
impl Mul for Divisor: returns (new a value, new b value) at index i. -/
def mulVals (self rhs : Divisor F) (i : Nat) : F × F :=
  let m := self.modulus.evals.getD i 0
  let a1 := self.a.evals.getD i 0
  let b1 := self.b.evals.getD i 0
  let a2 := rhs.a.evals.getD i 0
  let b2 := rhs.b.evals.getD i 0
  let a1a2 := a1 * a2
  let b1b2 := b1 * b2
  let cross := (a1 + b1) * (a2 + b2)
  (a1a2 + b1b2 * m, cross - (a1a2 + b1b2))

/-- General multiplication of two divisors, from impl Mul for Divisor.
The debug assertions on table lengths, and the out-of-bounds panic on a
too-short modulus table, are modelled as none. -/
def mul (self rhs : Divisor F) : Option (Divisor F) :=
  if self.a.evals.length = rhs.a.evals.length
      ∧ self.b.evals.length = rhs.b.evals.length
      ∧ self.a.evals.length = self.b.evals.length
      ∧ self.a.evals.length ≤ self.modulus.evals.length then
    let len := self.a.evals.length
    let nd := new_degree self rhs
    some { a := ⟨(List.range len).map fun i => (mulVals self rhs i).1, nd.1⟩,
           b := ⟨(List.range len).map fun i => (mulVals self rhs i).2, nd.2⟩,
           modulus := self.modulus }
  else none

/-- The loop of the mixed multiplication in impl Mul SmallDivisor for
Divisor: walks the zipped (a, b, modulus) samples carrying the running
accumulator a2, which starts at the intercept and grows by the slope
once per sample; emits the (new a, new b) pair per sample. -/
def smallLoop (slope b2 : F) : List (F × F × F) → F → List (F × F)
  | [], _ => []
  | t :: rest, a2 =>
      let a1 := t.1
      let b1 := t.2.1
      let m := t.2.2
      let a1a2 := a1 * a2
      let b1b2 := b1 * b2
      let cross := (a1 + b1) * (a2 + b2)
      (a1a2 + b1b2 * m, cross - (a1a2 + b1b2)) :: smallLoop slope b2 rest (a2 + slope)

/-- Mixed multiplication by a linear divisor, from impl Mul SmallDivisor
for Divisor.  Note the source reads BOTH degree bounds da and db from
self.a.degree (line 205 of divisor.rs). -/
def smallMul (self : Divisor F) (rhs : SmallDivisor F) : Option (Divisor F) :=
  if self.a.evals.length = self.b.evals.length
      ∧ self.a.evals.length ≤ self.modulus.evals.length then
    let prs := smallLoop rhs.a.1 rhs.b
      (self.a.evals.zip (self.b.evals.zip self.modulus.evals)) rhs.a.2
    let da := self.a.degree
    let db := self.a.degree
    some { a := ⟨prs.map Prod.fst, da.max (db + 3)⟩,
           b := ⟨prs.map Prod.snd, da.max (1 + db)⟩,
           modulus := self.modulus }
  else none

/-- Division of a divisor by an evaluation table, from impl Div Evals for
Divisor.  The batched inversion of the ff crate computes the inverse of
the running product with unwrap, so a zero sample aborts; that abort and
the length debug assertions are modelled as none. -/
def divEvals (self : Divisor F) (rhs : Evals F) : Option (Divisor F) :=
  if self.a.evals.length = self.b.evals.length
      ∧ self.a.evals.length = rhs.evals.length
      ∧ ∀ z ∈ rhs.evals, z ≠ 0 then
    let inverted := rhs.evals.map fun z => z⁻¹
    some { a := ⟨List.zipWith (· * ·) self.a.evals inverted, self.a.degree - rhs.degree⟩,
           b := ⟨List.zipWith (· * ·) self.b.evals inverted, self.b.degree - rhs.degree⟩,
           modulus := self.modulus }
  else none

/-- The denominator table built by Divisor::remove_diff: sample i holds
(x_i - x1) (x_i - x2) where x_i is the field image of i. -/
def diffDenom (n : Nat) (x1 x2 : F) : List F :=
  (List.range n).map fun (i : Nat) => ((i : F) - x1) * ((i : F) - x2)

/-- Divisor::remove_diff: divide by (x - x1) (x - x2) via the pointwise
denominator table of tracked degree 2.  The assert on equal table
lengths is modelled as none. -/
def remove_diff (self : Divisor F) (x1 x2 : F) : Option (Divisor F) :=
  if self.a.evals.length = self.b.evals.length then
    divEvals self ⟨diffDenom self.a.evals.length x1 x2, 2⟩
  else none

/-- Divisor::merge: multiply the two divisors, fold in the linear
divisor, then remove the two known roots. -/
def merge (d1 d2 : Divisor F) (small : SmallDivisor F) (denom : F × F) :
    Option (Divisor F) := do
  let n ← mul d1 d2
  let n ← smallMul n small
  remove_diff n denom.1 denom.2

/-! ### Indexing helpers -/

lemma getD_range_map (f : Nat → F) (n i : Nat) (h : i < n) (d : F) :
    ((List.range n).map f).getD i d = f i := by
  rw [List.getD_eq_getElem?_getD, List.getElem?_map, List.getElem?_range h]
  rfl

lemma getElem?_of_lt {α : Type} (l : List α) (i : Nat) (h : i < l.length) (d : α) :
    l[i]? = some (l.getD i d) := by
  rw [List.getD_eq_getElem?_getD, List.getElem?_eq_getElem h]
  rfl

lemma zip_getElem?_eq {α β : Type} {l1 : List α} {l2 : List β} {i : Nat}
    {x : α} {y : β} (h1 : l1[i]? = some x) (h2 : l2[i]? = some y) :
    (l1.zip l2)[i]? = some (x, y) := by
  simp [List.getElem?_zip_eq_some]
  exact ⟨h1, h2⟩

lemma zipWith_getD_eq {l1 l2 : List F} {i : Nat} {x y : F}
    (h1 : l1[i]? = some x) (h2 : l2[i]? = some y) (d : F) :
    (List.zipWith (· * ·) l1 l2).getD i d = x * y := by
  rw [List.getD_eq_getElem?_getD, List.getElem?_zipWith', h1, h2]
  rfl

lemma map_getD_eq {α β : Type} {l : List α} {i : Nat} {x : α}
    (h : l[i]? = some x) (f : α → β) (d : β) :
    (l.map f).getD i d = f x := by
  rw [List.getD_eq_getElem?_getD, List.getElem?_map, h]
  rfl

/-! ### Elimination lemmas: what a successful operation tells us -/

lemma mul_eq_some {d1 d2 out : Divisor F} (h : mul d1 d2 = some out) :
    (d1.a.evals.length = d2.a.evals.length ∧ d1.b.evals.length = d2.b.evals.length
      ∧ d1.a.evals.length = d1.b.evals.length
      ∧ d1.a.evals.length ≤ d1.modulus.evals.length)
    ∧ out = { a := ⟨(List.range d1.a.evals.length).map fun i => (mulVals d1 d2 i).1,
                    (new_degree d1 d2).1⟩,
              b := ⟨(List.range d1.a.evals.length).map fun i => (mulVals d1 d2 i).2,
                    (new_degree d1 d2).2⟩,
              modulus := d1.modulus } := by
  unfold mul at h
  split at h
  · exact ⟨‹_›, (Option.some.inj h).symm⟩
  · exact Option.noConfusion h

lemma smallMul_eq_some {d : Divisor F} {s : SmallDivisor F} {out : Divisor F}
    (h : smallMul d s = some out) :
    (d.a.evals.length = d.b.evals.length
      ∧ d.a.evals.length ≤ d.modulus.evals.length)
    ∧ out = { a := ⟨(smallLoop s.a.1 s.b
                      (d.a.evals.zip (d.b.evals.zip d.modulus.evals)) s.a.2).map Prod.fst,
                    d.a.degree.max (d.a.degree + 3)⟩,
              b := ⟨(smallLoop s.a.1 s.b
                      (d.a.evals.zip (d.b.evals.zip d.modulus.evals)) s.a.2).map Prod.snd,
                    d.a.degree.max (1 + d.a.degree)⟩,
              modulus := d.modulus } := by
  unfold smallMul at h
  split at h
  · exact ⟨‹_›, (Option.some.inj h).symm⟩
  · exact Option.noConfusion h

lemma divEvals_eq_some {d : Divisor F} {rhs : Evals F} {out : Divisor F}
    (h : divEvals d rhs = some out) :
    (d.a.evals.length = d.b.evals.length
      ∧ d.a.evals.length = rhs.evals.length
      ∧ ∀ z ∈ rhs.evals, z ≠ 0)
    ∧ out = { a := ⟨List.zipWith (· * ·) d.a.evals (rhs.evals.map fun z => z⁻¹),
                    d.a.degree - rhs.degree⟩,
              b := ⟨List.zipWith (· * ·) d.b.evals (rhs.evals.map fun z => z⁻¹),
                    d.b.degree - rhs.degree⟩,
              modulus := d.modulus } := by
  unfold divEvals at h
  split at h
  · exact ⟨‹_›, (Option.some.inj h).symm⟩
  · exact Option.noConfusion h

lemma remove_diff_eq_some {d : Divisor F} {x1 x2 : F} {out : Divisor F}
    (h : remove_diff d x1 x2 = some out) :
    d.a.evals.length = d.b.evals.length
    ∧ divEvals d ⟨diffDenom d.a.evals.length x1 x2, 2⟩ = some out := by
  unfold remove_diff at h
  split at h
  · exact ⟨‹_›, h⟩
  · exact Option.noConfusion h

/-- Closed form for the mixed-multiplication loop: at index i the
accumulator has value a2 + i * slope, and the emitted pair is the
general per-sample arithmetic at that accumulator value. -/
lemma smallLoop_getElem? (slope b2 : F) (l : List (F × F × F)) :
    ∀ (a2 : F) (i : Nat) (t : F × F × F), l[i]? = some t →
      (smallLoop slope b2 l a2)[i]? = some
        (t.1 * (a2 + (i : F) * slope) + t.2.1 * b2 * t.2.2,
         (t.1 + t.2.1) * ((a2 + (i : F) * slope) + b2)
           - (t.1 * (a2 + (i : F) * slope) + t.2.1 * b2)) := by
  induction l with
  | nil => intro a2 i t h; simp at h
  | cons x rest ih =>
      intro a2 i t h
      cases i with
      | zero =>
          simp only [List.getElem?_cons_zero, Option.some.injEq] at h
          subst h
          simp only [smallLoop, List.getElem?_cons_zero, Option.some.injEq,
            Nat.cast_zero, Prod.mk.injEq]
          constructor <;> ring
      | succ i =>
          simp only [List.getElem?_cons_succ] at h
          have hrec := ih (a2 + slope) i t h
          simp only [smallLoop, List.getElem?_cons_succ, hrec, Option.some.injEq,
            Prod.mk.injEq, Nat.cast_succ]
          constructor <;> ring

/-! ### Claims -/

/-- C1: for divisors sharing the modulus table with equal table lengths n,
general multiplication is pointwise per the curve identity: at every
sample i < n the output satisfies B(i) = A1(i)B2(i) + A2(i)B1(i) and
A(i) = A1(i)A2(i) + B1(i)B2(i)m(i), and for every y with y^2 = m(i),
A(i) - yB(i) = (A1(i) - yB1(i)) (A2(i) - yB2(i)). -/
theorem C1_general_mul_pointwise (d1 d2 out : Divisor F)
    (hm : d1.modulus = d2.modulus)
    (hlen : d1.a.evals.length = d2.a.evals.length)
    (hmul : mul d1 d2 = some out) (i : Nat) (hi : i < d1.a.evals.length) :
    out.b.evals.getD i 0 =
        d1.a.evals.getD i 0 * d2.b.evals.getD i 0
          + d2.a.evals.getD i 0 * d1.b.evals.getD i 0
    ∧ out.a.evals.getD i 0 =
        d1.a.evals.getD i 0 * d2.a.evals.getD i 0
          + d1.b.evals.getD i 0 * d2.b.evals.getD i 0 * d1.modulus.evals.getD i 0
    ∧ ∀ y : F, y ^ 2 = d1.modulus.evals.getD i 0 →
        out.a.evals.getD i 0 - y * out.b.evals.getD i 0
          = (d1.a.evals.getD i 0 - y * d1.b.evals.getD i 0)
              * (d2.a.evals.getD i 0 - y * d2.b.evals.getD i 0) := by
  obtain ⟨hg, hout⟩ := mul_eq_some hmul
  subst hout
  simp only [getD_range_map _ _ _ hi, mulVals]
  refine ⟨by ring, by ring, ?_⟩
  intro y hy
  rw [← hy]
  ring

instance : Fact (Nat.Prime 11) := ⟨by norm_num⟩

/-- Witness for C1 at a concrete input over ZMod 11: m(0) = 4, y = 2. -/
theorem C1_general_mul_pointwise_witness :
    mul (⟨⟨[3], 0⟩, ⟨[5], 0⟩, ⟨[4], 3⟩⟩ : Divisor (ZMod 11))
        ⟨⟨[7], 0⟩, ⟨[1], 0⟩, ⟨[4], 3⟩⟩
      = some ⟨⟨[8], 3⟩, ⟨[5], 0⟩, ⟨[4], 3⟩⟩
    ∧ (5 : ZMod 11) = 3 * 1 + 7 * 5
    ∧ (8 : ZMod 11) = 3 * 7 + 5 * 1 * 4
    ∧ (8 : ZMod 11) - 2 * 5 = (3 - 2 * 5) * (7 - 2 * 1) := by
  have hmul : mul (⟨⟨[3], 0⟩, ⟨[5], 0⟩, ⟨[4], 3⟩⟩ : Divisor (ZMod 11))
      ⟨⟨[7], 0⟩, ⟨[1], 0⟩, ⟨[4], 3⟩⟩ = some ⟨⟨[8], 3⟩, ⟨[5], 0⟩, ⟨[4], 3⟩⟩ := by decide
  obtain ⟨h1, h2, h3⟩ :=
    C1_general_mul_pointwise
      ⟨⟨[3], 0⟩, ⟨[5], 0⟩, ⟨[4], 3⟩⟩ ⟨⟨[7], 0⟩, ⟨[1], 0⟩, ⟨[4], 3⟩⟩
      ⟨⟨[8], 3⟩, ⟨[5], 0⟩, ⟨[4], 3⟩⟩ rfl rfl hmul 0 (by decide)
  exact ⟨hmul, h1, h2, h3 2 (by decide)⟩

/-- C4: mixed multiplication evaluates the linear operand via the
additive recurrence, so at every sample i the value used for a2 is
slope * x_i + intercept with x_i the field image of i, and the outputs
are A(i) = A1(i)(s x_i + c) + B1(i) b m(i) and
B(i) = A1(i) b + (s x_i + c) B1(i): the general multiplication
arithmetic with A2(x_i) = s x_i + c and B2 = b. -/
theorem C4_mixed_mul_pointwise (d : Divisor F) (s : SmallDivisor F) (out : Divisor F)
    (hmul : smallMul d s = some out) (i : Nat) (hi : i < d.a.evals.length) :
    out.a.evals.getD i 0 =
        d.a.evals.getD i 0 * (s.a.1 * (i : F) + s.a.2)
          + d.b.evals.getD i 0 * s.b * d.modulus.evals.getD i 0
    ∧ out.b.evals.getD i 0 =
        d.a.evals.getD i 0 * s.b
          + (s.a.1 * (i : F) + s.a.2) * d.b.evals.getD i 0 := by
  obtain ⟨⟨hab, hmlen⟩, hout⟩ := smallMul_eq_some hmul
  subst hout
  have ha : d.a.evals[i]? = some (d.a.evals.getD i 0) := getElem?_of_lt _ _ hi _
  have hb : d.b.evals[i]? = some (d.b.evals.getD i 0) :=
    getElem?_of_lt _ _ (hab ▸ hi) _
  have hmod : d.modulus.evals[i]? = some (d.modulus.evals.getD i 0) :=
    getElem?_of_lt _ _ (lt_of_lt_of_le hi hmlen) _
  have hzip := zip_getElem?_eq ha (zip_getElem?_eq hb hmod)
  have hloop := smallLoop_getElem? s.a.1 s.b _ s.a.2 i _ hzip
  constructor
  · rw [map_getD_eq hloop Prod.fst 0]
    ring
  · rw [map_getD_eq hloop Prod.snd 0]
    ring

/-- Witness for C4 at a concrete input over ZMod 11, sample i = 1:
slope 3, intercept 1, so a2 = 3 * 1 + 1 = 4 there. -/
theorem C4_mixed_mul_pointwise_witness :
    smallMul (⟨⟨[2, 3], 0⟩, ⟨[1, 4], 0⟩, ⟨[5, 6], 3⟩⟩ : Divisor (ZMod 11)) ⟨(3, 1), 2⟩
      = some ⟨⟨[1, 5], 3⟩, ⟨[5, 0], 1⟩, ⟨[5, 6], 3⟩⟩
    ∧ (5 : ZMod 11) = 3 * (3 * ((1 : Nat) : ZMod 11) + 1) + 4 * 2 * 6
    ∧ (0 : ZMod 11) = 3 * 2 + (3 * ((1 : Nat) : ZMod 11) + 1) * 4 := by
  have hmul : smallMul (⟨⟨[2, 3], 0⟩, ⟨[1, 4], 0⟩, ⟨[5, 6], 3⟩⟩ : Divisor (ZMod 11))
      ⟨(3, 1), 2⟩ = some ⟨⟨[1, 5], 3⟩, ⟨[5, 0], 1⟩, ⟨[5, 6], 3⟩⟩ := by decide
  obtain ⟨h1, h2⟩ :=
    C4_mixed_mul_pointwise ⟨⟨[2, 3], 0⟩, ⟨[1, 4], 0⟩, ⟨[5, 6], 3⟩⟩ ⟨(3, 1), 2⟩
      ⟨⟨[1, 5], 3⟩, ⟨[5, 0], 1⟩, ⟨[5, 6], 3⟩⟩ hmul 1 (by decide)
  exact ⟨hmul, h1, h2⟩

lemma zipWith_getElem?_eq {l1 l2 : List F} {i : Nat} {x y : F}
    (h1 : l1[i]? = some x) (h2 : l2[i]? = some y) :
    (List.zipWith (· * ·) l1 l2)[i]? = some (x * y) := by
  rw [List.getElem?_zipWith', h1, h2]
  rfl

lemma diffDenom_getElem? {n i : Nat} (hi : i < n) (x1 x2 : F) :
    (diffDenom n x1 x2)[i]? = some (((i : F) - x1) * ((i : F) - x2)) := by
  unfold diffDenom
  rw [List.getElem?_map, List.getElem?_range hi]
  rfl

lemma diffDenom_length (n : Nat) (x1 x2 : F) : (diffDenom n x1 x2).length = n := by
  simp [diffDenom]

lemma divEvals_intro (d : Divisor F) (rhs : Evals F)
    (h1 : d.a.evals.length = d.b.evals.length)
    (h2 : d.a.evals.length = rhs.evals.length)
    (h3 : ∀ z ∈ rhs.evals, z ≠ 0) :
    divEvals d rhs = some
      { a := ⟨List.zipWith (· * ·) d.a.evals (rhs.evals.map fun z => z⁻¹),
              d.a.degree - rhs.degree⟩,
        b := ⟨List.zipWith (· * ·) d.b.evals (rhs.evals.map fun z => z⁻¹),
              d.b.degree - rhs.degree⟩,
        modulus := d.modulus } := by
  unfold divEvals
  rw [if_pos ⟨h1, h2, h3⟩]

lemma remove_diff_intro (d : Divisor F) (x1 x2 : F)
    (h1 : d.a.evals.length = d.b.evals.length)
    (h3 : ∀ z ∈ diffDenom d.a.evals.length x1 x2, z ≠ 0) :
    remove_diff d x1 x2 = some
      { a := ⟨List.zipWith (· * ·) d.a.evals
                ((diffDenom d.a.evals.length x1 x2).map fun z => z⁻¹),
              d.a.degree - 2⟩,
        b := ⟨List.zipWith (· * ·) d.b.evals
                ((diffDenom d.a.evals.length x1 x2).map fun z => z⁻¹),
              d.b.degree - 2⟩,
        modulus := d.modulus } := by
  unfold remove_diff
  rw [if_pos h1, divEvals_intro d ⟨diffDenom d.a.evals.length x1 x2, 2⟩ h1
    (diffDenom_length d.a.evals.length x1 x2).symm h3]

/-- C5: remove_diff builds the denominator table (x_i - x1)(x_i - x2)
and, all samples being nonzero, divides A and B pointwise by it via
inversion, so each output value is the input value times the inverse of
the denominator at that sample. -/
theorem C5_remove_diff_pointwise (d : Divisor F) (x1 x2 : F) (out : Divisor F)
    (h : remove_diff d x1 x2 = some out) (i : Nat) (hi : i < d.a.evals.length) :
    (diffDenom d.a.evals.length x1 x2).getD i 0 = ((i : F) - x1) * ((i : F) - x2)
    ∧ ((i : F) - x1) * ((i : F) - x2) ≠ 0
    ∧ out.a.evals.getD i 0
        = d.a.evals.getD i 0 * (((i : F) - x1) * ((i : F) - x2))⁻¹
    ∧ out.b.evals.getD i 0
        = d.b.evals.getD i 0 * (((i : F) - x1) * ((i : F) - x2))⁻¹ := by
  obtain ⟨hab, hdiv⟩ := remove_diff_eq_some h
  obtain ⟨⟨hab2, hlen, hnz⟩, hout⟩ := divEvals_eq_some hdiv
  subst hout
  have hden := diffDenom_getElem? hi x1 x2
  have hdg : (diffDenom d.a.evals.length x1 x2).getD i 0
      = ((i : F) - x1) * ((i : F) - x2) := by
    rw [List.getD_eq_getElem?_getD, hden]
    rfl
  have hmem : ((i : F) - x1) * ((i : F) - x2) ∈ diffDenom d.a.evals.length x1 x2 := by
    unfold diffDenom
    exact List.mem_map_of_mem _ (List.mem_range.mpr hi)
  have hnzi : ((i : F) - x1) * ((i : F) - x2) ≠ 0 := hnz _ hmem
  have ha : d.a.evals[i]? = some (d.a.evals.getD i 0) := getElem?_of_lt _ _ hi _
  have hb : d.b.evals[i]? = some (d.b.evals.getD i 0) :=
    getElem?_of_lt _ _ (hab ▸ hi) _
  have hinv : ((diffDenom d.a.evals.length x1 x2).map fun z => z⁻¹)[i]?
      = some ((((i : F) - x1) * ((i : F) - x2))⁻¹) := by
    rw [List.getElem?_map, hden]
    rfl
  exact ⟨hdg, hnzi, zipWith_getD_eq ha hinv 0, zipWith_getD_eq hb hinv 0⟩

/-- Witness for C5 at a concrete input over ZMod 11, with x1 = 1, x2 = 2
and a single sample at x = 0, where the denominator is 2. -/
theorem C5_remove_diff_pointwise_witness :
    remove_diff (⟨⟨[4], 2⟩, ⟨[6], 2⟩, ⟨[9], 3⟩⟩ : Divisor (ZMod 11)) 1 2
      = some ⟨⟨[4 * ((((0 : Nat) : ZMod 11) - 1) * (((0 : Nat) : ZMod 11) - 2))⁻¹], 0⟩,
              ⟨[6 * ((((0 : Nat) : ZMod 11) - 1) * (((0 : Nat) : ZMod 11) - 2))⁻¹], 0⟩,
              ⟨[9], 3⟩⟩
    ∧ (diffDenom 1 (1 : ZMod 11) 2).getD 0 0
        = (((0 : Nat) : ZMod 11) - 1) * (((0 : Nat) : ZMod 11) - 2)
    ∧ (((0 : Nat) : ZMod 11) - 1) * (((0 : Nat) : ZMod 11) - 2) ≠ 0
    ∧ 4 * ((((0 : Nat) : ZMod 11) - 1) * (((0 : Nat) : ZMod 11) - 2))⁻¹
        = 4 * ((((0 : Nat) : ZMod 11) - 1) * (((0 : Nat) : ZMod 11) - 2))⁻¹
    ∧ 6 * ((((0 : Nat) : ZMod 11) - 1) * (((0 : Nat) : ZMod 11) - 2))⁻¹
        = 6 * ((((0 : Nat) : ZMod 11) - 1) * (((0 : Nat) : ZMod 11) - 2))⁻¹ := by
  have h : remove_diff (⟨⟨[4], 2⟩, ⟨[6], 2⟩, ⟨[9], 3⟩⟩ : Divisor (ZMod 11)) 1 2
      = some ⟨⟨[4 * ((((0 : Nat) : ZMod 11) - 1) * (((0 : Nat) : ZMod 11) - 2))⁻¹], 0⟩,
              ⟨[6 * ((((0 : Nat) : ZMod 11) - 1) * (((0 : Nat) : ZMod 11) - 2))⁻¹], 0⟩,
              ⟨[9], 3⟩⟩ := by
    rw [remove_diff_intro ⟨⟨[4], 2⟩, ⟨[6], 2⟩, ⟨[9], 3⟩⟩ 1 2 rfl
      (by simp [diffDenom]; decide)]
    rfl
  obtain ⟨h1, h2, h3, h4⟩ :=
    C5_remove_diff_pointwise ⟨⟨[4], 2⟩, ⟨[6], 2⟩, ⟨[9], 3⟩⟩ 1 2
      ⟨⟨[4 * ((((0 : Nat) : ZMod 11) - 1) * (((0 : Nat) : ZMod 11) - 2))⁻¹], 0⟩,
       ⟨[6 * ((((0 : Nat) : ZMod 11) - 1) * (((0 : Nat) : ZMod 11) - 2))⁻¹], 0⟩,
       ⟨[9], 3⟩⟩ h 0 (by decide)
  exact ⟨h, h1, h2, h3, h4⟩

/-- Modelled from the spec, section 8 third bullet: the test construction
multiply_by_denominator that scales the A and B tables of a divisor
pointwise by the same denominator table that remove_diff divides by.
The kernel itself exposes no such operation; it is the comparison side
of claim C6. -/
def specMulByDenom (d : Divisor F) (x1 x2 : F) : Divisor F :=
  let den := diffDenom d.a.evals.length x1 x2
  { a := ⟨List.zipWith (· * ·) d.a.evals den, d.a.degree + 2⟩,
    b := ⟨List.zipWith (· * ·) d.b.evals den, d.b.degree + 2⟩,
    modulus := d.modulus }

lemma specMulByDenom_a_length (d : Divisor F) (x1 x2 : F)
    (hab : d.a.evals.length = d.b.evals.length) :
    (specMulByDenom d x1 x2).a.evals.length = d.a.evals.length := by
  simp [specMulByDenom, diffDenom]

lemma specMulByDenom_b_length (d : Divisor F) (x1 x2 : F)
    (hab : d.a.evals.length = d.b.evals.length) :
    (specMulByDenom d x1 x2).b.evals.length = d.a.evals.length := by
  simp [specMulByDenom, diffDenom, ← hab]

/-- C6: dividing out the very denominator just multiplied in restores
every sample: multiplying the A and B tables pointwise by the
denominator table for (x1, x2) and then applying remove_diff with the
same roots returns the original values at every sample. -/
theorem C6_div_inverts_mul (d : Divisor F) (x1 x2 : F) (out : Divisor F)
    (hab : d.a.evals.length = d.b.evals.length)
    (hrd : remove_diff (specMulByDenom d x1 x2) x1 x2 = some out)
    (i : Nat) (hi : i < d.a.evals.length) :
    out.a.evals.getD i 0 = d.a.evals.getD i 0
    ∧ out.b.evals.getD i 0 = d.b.evals.getD i 0 := by
  obtain ⟨hab2, hdiv⟩ := remove_diff_eq_some hrd
  obtain ⟨⟨hab3, hlen, hnz⟩, hout⟩ := divEvals_eq_some hdiv
  subst hout
  have hlenA := specMulByDenom_a_length d x1 x2 hab
  have hiA : i < (specMulByDenom d x1 x2).a.evals.length := hlenA ▸ hi
  have hden := diffDenom_getElem? hi x1 x2
  have hdenA := diffDenom_getElem? hiA x1 x2
  have hmem : ((i : F) - x1) * ((i : F) - x2)
      ∈ diffDenom (specMulByDenom d x1 x2).a.evals.length x1 x2 := by
    unfold diffDenom
    exact List.mem_map_of_mem _ (List.mem_range.mpr hiA)
  have hnzi : ((i : F) - x1) * ((i : F) - x2) ≠ 0 := hnz _ hmem
  have ha : d.a.evals[i]? = some (d.a.evals.getD i 0) := getElem?_of_lt _ _ hi _
  have hb : d.b.evals[i]? = some (d.b.evals.getD i 0) :=
    getElem?_of_lt _ _ (hab ▸ hi) _
  have hnum_a : (specMulByDenom d x1 x2).a.evals[i]?
      = some (d.a.evals.getD i 0 * (((i : F) - x1) * ((i : F) - x2))) :=
    zipWith_getElem?_eq ha hden
  have hnum_b : (specMulByDenom d x1 x2).b.evals[i]?
      = some (d.b.evals.getD i 0 * (((i : F) - x1) * ((i : F) - x2))) :=
    zipWith_getElem?_eq hb hden
  have hinv : ((diffDenom (specMulByDenom d x1 x2).a.evals.length x1 x2).map
      fun z => z⁻¹)[i]? = some ((((i : F) - x1) * ((i : F) - x2))⁻¹) := by
    rw [List.getElem?_map, hdenA]
    rfl
  constructor
  · rw [zipWith_getD_eq hnum_a hinv 0]
    exact mul_inv_cancel_right₀ hnzi _
  · rw [zipWith_getD_eq hnum_b hinv 0]
    exact mul_inv_cancel_right₀ hnzi _

/-- Witness for C6 over ZMod 11: with one sample the round trip through
multiply-by-denominator and remove_diff restores both table values. -/
theorem C6_div_inverts_mul_witness :
    remove_diff (specMulByDenom (⟨⟨[4], 0⟩, ⟨[6], 0⟩, ⟨[9], 3⟩⟩ : Divisor (ZMod 11)) 1 2) 1 2
      = some ⟨⟨[4 * ((((0 : Nat) : ZMod 11) - 1) * (((0 : Nat) : ZMod 11) - 2))
                  * ((((0 : Nat) : ZMod 11) - 1) * (((0 : Nat) : ZMod 11) - 2))⁻¹], 0⟩,
              ⟨[6 * ((((0 : Nat) : ZMod 11) - 1) * (((0 : Nat) : ZMod 11) - 2))
                  * ((((0 : Nat) : ZMod 11) - 1) * (((0 : Nat) : ZMod 11) - 2))⁻¹], 0⟩,
              ⟨[9], 3⟩⟩
    ∧ 4 * ((((0 : Nat) : ZMod 11) - 1) * (((0 : Nat) : ZMod 11) - 2))
        * ((((0 : Nat) : ZMod 11) - 1) * (((0 : Nat) : ZMod 11) - 2))⁻¹ = 4
    ∧ 6 * ((((0 : Nat) : ZMod 11) - 1) * (((0 : Nat) : ZMod 11) - 2))
        * ((((0 : Nat) : ZMod 11) - 1) * (((0 : Nat) : ZMod 11) - 2))⁻¹ = 6 := by
  have hrd : remove_diff
      (specMulByDenom (⟨⟨[4], 0⟩, ⟨[6], 0⟩, ⟨[9], 3⟩⟩ : Divisor (ZMod 11)) 1 2) 1 2
      = some ⟨⟨[4 * ((((0 : Nat) : ZMod 11) - 1) * (((0 : Nat) : ZMod 11) - 2))
                  * ((((0 : Nat) : ZMod 11) - 1) * (((0 : Nat) : ZMod 11) - 2))⁻¹], 0⟩,
              ⟨[6 * ((((0 : Nat) : ZMod 11) - 1) * (((0 : Nat) : ZMod 11) - 2))
                  * ((((0 : Nat) : ZMod 11) - 1) * (((0 : Nat) : ZMod 11) - 2))⁻¹], 0⟩,
              ⟨[9], 3⟩⟩ := by
    rw [remove_diff_intro (specMulByDenom ⟨⟨[4], 0⟩, ⟨[6], 0⟩, ⟨[9], 3⟩⟩ 1 2) 1 2
      (by simp [specMulByDenom, diffDenom]) (by simp [specMulByDenom, diffDenom]; decide)]
    rfl
  obtain ⟨h1, h2⟩ :=
    C6_div_inverts_mul ⟨⟨[4], 0⟩, ⟨[6], 0⟩, ⟨[9], 3⟩⟩ 1 2
      ⟨⟨[4 * ((((0 : Nat) : ZMod 11) - 1) * (((0 : Nat) : ZMod 11) - 2))
           * ((((0 : Nat) : ZMod 11) - 1) * (((0 : Nat) : ZMod 11) - 2))⁻¹], 0⟩,
       ⟨[6 * ((((0 : Nat) : ZMod 11) - 1) * (((0 : Nat) : ZMod 11) - 2))
           * ((((0 : Nat) : ZMod 11) - 1) * (((0 : Nat) : ZMod 11) - 2))⁻¹], 0⟩,
       ⟨[9], 3⟩⟩ rfl hrd 0 (by decide)
  exact ⟨hrd, h1, h2⟩

/-- C7: under the precondition that both dividend degree bounds are at
least the denominator degree (at least 2 for remove_diff), the degree
updates of division are exact unsigned subtractions: output bound plus
denominator degree gives back the input bound, a decrease by exactly 2
in remove_diff. -/
theorem C7_div_degree_updates (d : Divisor F) (rhs : Evals F) (out : Divisor F)
    (d2 : Divisor F) (x1 x2 : F) (out2 : Divisor F)
    (h1 : rhs.degree ≤ d.a.degree) (h2 : rhs.degree ≤ d.b.degree)
    (h : divEvals d rhs = some out)
    (h3 : 2 ≤ d2.a.degree) (h4 : 2 ≤ d2.b.degree)
    (h' : remove_diff d2 x1 x2 = some out2) :
    out.a.degree + rhs.degree = d.a.degree
    ∧ out.b.degree + rhs.degree = d.b.degree
    ∧ out2.a.degree + 2 = d2.a.degree
    ∧ out2.b.degree + 2 = d2.b.degree := by
  obtain ⟨hg, hout⟩ := divEvals_eq_some h
  obtain ⟨hab2, hdiv2⟩ := remove_diff_eq_some h'
  obtain ⟨hg2, hout2⟩ := divEvals_eq_some hdiv2
  subst hout
  subst hout2
  exact ⟨Nat.sub_add_cancel h1, Nat.sub_add_cancel h2,
    Nat.sub_add_cancel h3, Nat.sub_add_cancel h4⟩

/-- Witness for C7: a division by a table of degree 2 and a remove_diff,
both on bounds (2, 3) and (2, 2), with the expected exact decreases. -/
theorem C7_div_degree_updates_witness :
    divEvals (⟨⟨[4], 2⟩, ⟨[6], 3⟩, ⟨[9], 3⟩⟩ : Divisor (ZMod 11)) ⟨[2], 2⟩
      = some ⟨⟨[4 * (2 : ZMod 11)⁻¹], 0⟩, ⟨[6 * (2 : ZMod 11)⁻¹], 1⟩, ⟨[9], 3⟩⟩
    ∧ remove_diff (⟨⟨[4], 2⟩, ⟨[6], 2⟩, ⟨[9], 3⟩⟩ : Divisor (ZMod 11)) 1 2
      = some ⟨⟨[4 * ((((0 : Nat) : ZMod 11) - 1) * (((0 : Nat) : ZMod 11) - 2))⁻¹], 0⟩,
              ⟨[6 * ((((0 : Nat) : ZMod 11) - 1) * (((0 : Nat) : ZMod 11) - 2))⁻¹], 0⟩,
              ⟨[9], 3⟩⟩
    ∧ 0 + 2 = 2 ∧ 1 + 2 = 3 ∧ 0 + 2 = 2 ∧ 0 + 2 = 2 := by
  have hdiv : divEvals (⟨⟨[4], 2⟩, ⟨[6], 3⟩, ⟨[9], 3⟩⟩ : Divisor (ZMod 11)) ⟨[2], 2⟩
      = some ⟨⟨[4 * (2 : ZMod 11)⁻¹], 0⟩, ⟨[6 * (2 : ZMod 11)⁻¹], 1⟩, ⟨[9], 3⟩⟩ := by
    rw [divEvals_intro ⟨⟨[4], 2⟩, ⟨[6], 3⟩, ⟨[9], 3⟩⟩ ⟨[2], 2⟩ rfl rfl (by decide)]
    rfl
  have hrd : remove_diff (⟨⟨[4], 2⟩, ⟨[6], 2⟩, ⟨[9], 3⟩⟩ : Divisor (ZMod 11)) 1 2
      = some ⟨⟨[4 * ((((0 : Nat) : ZMod 11) - 1) * (((0 : Nat) : ZMod 11) - 2))⁻¹], 0⟩,
              ⟨[6 * ((((0 : Nat) : ZMod 11) - 1) * (((0 : Nat) : ZMod 11) - 2))⁻¹], 0⟩,
              ⟨[9], 3⟩⟩ := by
    rw [remove_diff_intro ⟨⟨[4], 2⟩, ⟨[6], 2⟩, ⟨[9], 3⟩⟩ 1 2 rfl
      (by simp [diffDenom]; decide)]
    rfl
  obtain ⟨g1, g2, g3, g4⟩ :=
    C7_div_degree_updates ⟨⟨[4], 2⟩, ⟨[6], 3⟩, ⟨[9], 3⟩⟩ ⟨[2], 2⟩
      ⟨⟨[4 * (2 : ZMod 11)⁻¹], 0⟩, ⟨[6 * (2 : ZMod 11)⁻¹], 1⟩, ⟨[9], 3⟩⟩
      ⟨⟨[4], 2⟩, ⟨[6], 2⟩, ⟨[9], 3⟩⟩ 1 2
      ⟨⟨[4 * ((((0 : Nat) : ZMod 11) - 1) * (((0 : Nat) : ZMod 11) - 2))⁻¹], 0⟩,
       ⟨[6 * ((((0 : Nat) : ZMod 11) - 1) * (((0 : Nat) : ZMod 11) - 2))⁻¹], 0⟩,
       ⟨[9], 3⟩⟩
      (by decide) (by decide) hdiv (by decide) (by decide) hrd
  exact ⟨hdiv, hrd, g1, g2, g3, g4⟩

/-- C8: every operation whose operand tables have mismatched lengths
(the two divisors in multiplication, A versus B, or A versus the
denominator in division) aborts rather than silently computing. -/
theorem C8_mismatched_lengths_abort (d1 d2 e : Divisor F) (s : SmallDivisor F)
    (f : Divisor F) (rhs : Evals F) (g : Divisor F) (x1 x2 : F)
    (hmul : d1.a.evals.length ≠ d2.a.evals.length
      ∨ d1.b.evals.length ≠ d2.b.evals.length
      ∨ d1.a.evals.length ≠ d1.b.evals.length)
    (hsm : e.a.evals.length ≠ e.b.evals.length)
    (hdiv : f.a.evals.length ≠ f.b.evals.length
      ∨ f.a.evals.length ≠ rhs.evals.length)
    (hrd : g.a.evals.length ≠ g.b.evals.length) :
    mul d1 d2 = none ∧ smallMul e s = none ∧ divEvals f rhs = none
    ∧ remove_diff g x1 x2 = none := by
  refine ⟨?_, ?_, ?_, ?_⟩
  · unfold mul
    rw [if_neg]
    tauto
  · unfold smallMul
    rw [if_neg]
    tauto
  · unfold divEvals
    rw [if_neg]
    tauto
  · unfold remove_diff
    rw [if_neg hrd]

/-- Witness for C8: concrete mismatched tables make all four operations
return none. -/
theorem C8_mismatched_lengths_abort_witness :
    mul (⟨⟨[1], 0⟩, ⟨[1], 0⟩, ⟨[1], 0⟩⟩ : Divisor (ZMod 11)) ⟨⟨[1, 2], 0⟩, ⟨[1], 0⟩, ⟨[1], 0⟩⟩ = none
    ∧ smallMul (⟨⟨[1], 0⟩, ⟨[1, 2], 0⟩, ⟨[1], 0⟩⟩ : Divisor (ZMod 11)) ⟨(0, 0), 0⟩ = none
    ∧ divEvals (⟨⟨[1], 0⟩, ⟨[1, 2], 0⟩, ⟨[1], 0⟩⟩ : Divisor (ZMod 11)) ⟨[1], 0⟩ = none
    ∧ remove_diff (⟨⟨[1], 0⟩, ⟨[1, 2], 0⟩, ⟨[1], 0⟩⟩ : Divisor (ZMod 11)) 1 2 = none :=
  C8_mismatched_lengths_abort
    ⟨⟨[1], 0⟩, ⟨[1], 0⟩, ⟨[1], 0⟩⟩ ⟨⟨[1, 2], 0⟩, ⟨[1], 0⟩, ⟨[1], 0⟩⟩
    ⟨⟨[1], 0⟩, ⟨[1, 2], 0⟩, ⟨[1], 0⟩⟩ ⟨(0, 0), 0⟩
    ⟨⟨[1], 0⟩, ⟨[1, 2], 0⟩, ⟨[1], 0⟩⟩ ⟨[1], 0⟩
    ⟨⟨[1], 0⟩, ⟨[1, 2], 0⟩, ⟨[1], 0⟩⟩ 1 2
    (Or.inl (by decide)) (by decide) (Or.inl (by decide)) (by decide)

lemma smallLoop_length (slope b2 : F) :
    ∀ (l : List (F × F × F)) (a2 : F), (smallLoop slope b2 l a2).length = l.length
  | [], _ => rfl
  | t :: rest, a2 => by
      simp [smallLoop, smallLoop_length slope b2 rest (a2 + slope)]

lemma mul_frame {d1 d2 out : Divisor F} (h : mul d1 d2 = some out) :
    out.modulus = d1.modulus ∧ out.a.evals.length = d1.a.evals.length
    ∧ out.b.evals.length = d1.b.evals.length := by
  obtain ⟨⟨h1, h2, h3, h4⟩, hout⟩ := mul_eq_some h
  subst hout
  simp [← h3]

lemma smallMul_frame {e : Divisor F} {s : SmallDivisor F} {out : Divisor F}
    (h : smallMul e s = some out) :
    out.modulus = e.modulus ∧ out.a.evals.length = e.a.evals.length
    ∧ out.b.evals.length = e.b.evals.length := by
  obtain ⟨⟨h1, h2⟩, hout⟩ := smallMul_eq_some h
  subst hout
  refine ⟨rfl, ?_, ?_⟩ <;> simp [smallLoop_length, List.length_zip] <;> omega

lemma divEvals_frame {f : Divisor F} {rhs : Evals F} {out : Divisor F}
    (h : divEvals f rhs = some out) :
    out.modulus = f.modulus ∧ out.a.evals.length = f.a.evals.length
    ∧ out.b.evals.length = f.b.evals.length := by
  obtain ⟨⟨h1, h2, h3⟩, hout⟩ := divEvals_eq_some h
  subst hout
  refine ⟨rfl, ?_, ?_⟩ <;> simp [List.length_zipWith] <;> omega

lemma remove_diff_frame {g : Divisor F} {x1 x2 : F} {out : Divisor F}
    (h : remove_diff g x1 x2 = some out) :
    out.modulus = g.modulus ∧ out.a.evals.length = g.a.evals.length
    ∧ out.b.evals.length = g.b.evals.length := by
  obtain ⟨hab, hdiv⟩ := remove_diff_eq_some h
  exact divEvals_frame hdiv

lemma merge_eq_some {m1 m2 : Divisor F} {sm : SmallDivisor F} {y1 y2 : F}
    {out : Divisor F} (h : merge m1 m2 sm (y1, y2) = some out) :
    ∃ n1 n2, mul m1 m2 = some n1 ∧ smallMul n1 sm = some n2
      ∧ remove_diff n2 y1 y2 = some out := by
  unfold merge at h
  cases hm : mul m1 m2 with
  | none => rw [hm] at h; exact Option.noConfusion h
  | some n1 =>
      rw [hm] at h
      simp only [Option.bind_eq_bind, Option.some_bind] at h
      cases hs : smallMul n1 sm with
      | none => rw [hs] at h; exact Option.noConfusion h
      | some n2 =>
          rw [hs] at h
          simp only [Option.some_bind] at h
          exact ⟨n1, n2, rfl, hs, h⟩

/-- C9: every operation carries the modulus table through unchanged
(the output references the same table as its left input, by value here)
and preserves the lengths of the A and B value vectors; no table is
resized. -/
theorem C9_frame_effects
    (d1 d2 outm : Divisor F) (hm : mul d1 d2 = some outm)
    (e : Divisor F) (s : SmallDivisor F) (oute : Divisor F)
    (he : smallMul e s = some oute)
    (f : Divisor F) (rhs : Evals F) (outf : Divisor F)
    (hf : divEvals f rhs = some outf)
    (g : Divisor F) (x1 x2 : F) (outg : Divisor F)
    (hg : remove_diff g x1 x2 = some outg)
    (m1 m2 : Divisor F) (sm : SmallDivisor F) (y1 y2 : F) (outM : Divisor F)
    (hM : merge m1 m2 sm (y1, y2) = some outM) :
    (outm.modulus = d1.modulus ∧ outm.a.evals.length = d1.a.evals.length
      ∧ outm.b.evals.length = d1.b.evals.length)
    ∧ (oute.modulus = e.modulus ∧ oute.a.evals.length = e.a.evals.length
      ∧ oute.b.evals.length = e.b.evals.length)
    ∧ (outf.modulus = f.modulus ∧ outf.a.evals.length = f.a.evals.length
      ∧ outf.b.evals.length = f.b.evals.length)
    ∧ (outg.modulus = g.modulus ∧ outg.a.evals.length = g.a.evals.length
      ∧ outg.b.evals.length = g.b.evals.length)
    ∧ (outM.modulus = m1.modulus ∧ outM.a.evals.length = m1.a.evals.length
      ∧ outM.b.evals.length = m1.b.evals.length) := by
  refine ⟨mul_frame hm, smallMul_frame he, divEvals_frame hf, remove_diff_frame hg, ?_⟩
  obtain ⟨n1, n2, h1, h2, h3⟩ := merge_eq_some hM
  obtain ⟨f1m, f1a, f1b⟩ := mul_frame h1
  obtain ⟨f2m, f2a, f2b⟩ := smallMul_frame h2
  obtain ⟨f3m, f3a, f3b⟩ := remove_diff_frame h3
  exact ⟨f3m.trans (f2m.trans f1m), f3a.trans (f2a.trans f1a),
    f3b.trans (f2b.trans f1b)⟩

/-- Witness for C9: all five operations run on concrete divisors over
ZMod 11, all with single-sample tables, so every length is 1 and every
output modulus is the input modulus. -/
theorem C9_frame_effects_witness :
    ((⟨⟨[8], 3⟩, ⟨[5], 0⟩, ⟨[4], 3⟩⟩ : Divisor (ZMod 11)).modulus
        = (⟨⟨[3], 0⟩, ⟨[5], 0⟩, ⟨[4], 3⟩⟩ : Divisor (ZMod 11)).modulus
      ∧ (⟨⟨[8], 3⟩, ⟨[5], 0⟩, ⟨[4], 3⟩⟩ : Divisor (ZMod 11)).a.evals.length
        = (⟨⟨[3], 0⟩, ⟨[5], 0⟩, ⟨[4], 3⟩⟩ : Divisor (ZMod 11)).a.evals.length
      ∧ (⟨⟨[8], 3⟩, ⟨[5], 0⟩, ⟨[4], 3⟩⟩ : Divisor (ZMod 11)).b.evals.length
        = (⟨⟨[3], 0⟩, ⟨[5], 0⟩, ⟨[4], 3⟩⟩ : Divisor (ZMod 11)).b.evals.length)
    ∧ ((⟨⟨[4], 6⟩, ⟨[10], 4⟩, ⟨[4], 3⟩⟩ : Divisor (ZMod 11)).modulus
        = (⟨⟨[8], 3⟩, ⟨[5], 0⟩, ⟨[4], 3⟩⟩ : Divisor (ZMod 11)).modulus
      ∧ (⟨⟨[4], 6⟩, ⟨[10], 4⟩, ⟨[4], 3⟩⟩ : Divisor (ZMod 11)).a.evals.length
        = (⟨⟨[8], 3⟩, ⟨[5], 0⟩, ⟨[4], 3⟩⟩ : Divisor (ZMod 11)).a.evals.length
      ∧ (⟨⟨[4], 6⟩, ⟨[10], 4⟩, ⟨[4], 3⟩⟩ : Divisor (ZMod 11)).b.evals.length
        = (⟨⟨[8], 3⟩, ⟨[5], 0⟩, ⟨[4], 3⟩⟩ : Divisor (ZMod 11)).b.evals.length)
    ∧ ((⟨⟨[4 * (2 : ZMod 11)⁻¹], 0⟩, ⟨[6 * (2 : ZMod 11)⁻¹], 1⟩, ⟨[9], 3⟩⟩ : Divisor (ZMod 11)).modulus
        = (⟨⟨[4], 2⟩, ⟨[6], 3⟩, ⟨[9], 3⟩⟩ : Divisor (ZMod 11)).modulus
      ∧ (⟨⟨[4 * (2 : ZMod 11)⁻¹], 0⟩, ⟨[6 * (2 : ZMod 11)⁻¹], 1⟩, ⟨[9], 3⟩⟩ : Divisor (ZMod 11)).a.evals.length
        = (⟨⟨[4], 2⟩, ⟨[6], 3⟩, ⟨[9], 3⟩⟩ : Divisor (ZMod 11)).a.evals.length
      ∧ (⟨⟨[4 * (2 : ZMod 11)⁻¹], 0⟩, ⟨[6 * (2 : ZMod 11)⁻¹], 1⟩, ⟨[9], 3⟩⟩ : Divisor (ZMod 11)).b.evals.length
        = (⟨⟨[4], 2⟩, ⟨[6], 3⟩, ⟨[9], 3⟩⟩ : Divisor (ZMod 11)).b.evals.length)
    ∧ ((⟨⟨[4 * ((((0 : Nat) : ZMod 11) - 1) * (((0 : Nat) : ZMod 11) - 2))⁻¹], 0⟩,
          ⟨[6 * ((((0 : Nat) : ZMod 11) - 1) * (((0 : Nat) : ZMod 11) - 2))⁻¹], 0⟩,
          ⟨[9], 3⟩⟩ : Divisor (ZMod 11)).modulus
        = (⟨⟨[4], 2⟩, ⟨[6], 2⟩, ⟨[9], 3⟩⟩ : Divisor (ZMod 11)).modulus
      ∧ (⟨⟨[4 * ((((0 : Nat) : ZMod 11) - 1) * (((0 : Nat) : ZMod 11) - 2))⁻¹], 0⟩,
          ⟨[6 * ((((0 : Nat) : ZMod 11) - 1) * (((0 : Nat) : ZMod 11) - 2))⁻¹], 0⟩,
          ⟨[9], 3⟩⟩ : Divisor (ZMod 11)).a.evals.length
        = (⟨⟨[4], 2⟩, ⟨[6], 2⟩, ⟨[9], 3⟩⟩ : Divisor (ZMod 11)).a.evals.length
      ∧ (⟨⟨[4 * ((((0 : Nat) : ZMod 11) - 1) * (((0 : Nat) : ZMod 11) - 2))⁻¹], 0⟩,
          ⟨[6 * ((((0 : Nat) : ZMod 11) - 1) * (((0 : Nat) : ZMod 11) - 2))⁻¹], 0⟩,
          ⟨[9], 3⟩⟩ : Divisor (ZMod 11)).b.evals.length
        = (⟨⟨[4], 2⟩, ⟨[6], 2⟩, ⟨[9], 3⟩⟩ : Divisor (ZMod 11)).b.evals.length)
    ∧ ((⟨⟨[4 * ((((0 : Nat) : ZMod 11) - 1) * (((0 : Nat) : ZMod 11) - 2))⁻¹], 4⟩,
          ⟨[10 * ((((0 : Nat) : ZMod 11) - 1) * (((0 : Nat) : ZMod 11) - 2))⁻¹], 2⟩,
          ⟨[4], 3⟩⟩ : Divisor (ZMod 11)).modulus
        = (⟨⟨[3], 0⟩, ⟨[5], 0⟩, ⟨[4], 3⟩⟩ : Divisor (ZMod 11)).modulus
      ∧ (⟨⟨[4 * ((((0 : Nat) : ZMod 11) - 1) * (((0 : Nat) : ZMod 11) - 2))⁻¹], 4⟩,
          ⟨[10 * ((((0 : Nat) : ZMod 11) - 1) * (((0 : Nat) : ZMod 11) - 2))⁻¹], 2⟩,
          ⟨[4], 3⟩⟩ : Divisor (ZMod 11)).a.evals.length
        = (⟨⟨[3], 0⟩, ⟨[5], 0⟩, ⟨[4], 3⟩⟩ : Divisor (ZMod 11)).a.evals.length
      ∧ (⟨⟨[4 * ((((0 : Nat) : ZMod 11) - 1) * (((0 : Nat) : ZMod 11) - 2))⁻¹], 4⟩,
          ⟨[10 * ((((0 : Nat) : ZMod 11) - 1) * (((0 : Nat) : ZMod 11) - 2))⁻¹], 2⟩,
          ⟨[4], 3⟩⟩ : Divisor (ZMod 11)).b.evals.length
        = (⟨⟨[3], 0⟩, ⟨[5], 0⟩, ⟨[4], 3⟩⟩ : Divisor (ZMod 11)).b.evals.length) := by
  have hm : mul (⟨⟨[3], 0⟩, ⟨[5], 0⟩, ⟨[4], 3⟩⟩ : Divisor (ZMod 11))
      ⟨⟨[7], 0⟩, ⟨[1], 0⟩, ⟨[4], 3⟩⟩ = some ⟨⟨[8], 3⟩, ⟨[5], 0⟩, ⟨[4], 3⟩⟩ := by decide
  have he : smallMul (⟨⟨[8], 3⟩, ⟨[5], 0⟩, ⟨[4], 3⟩⟩ : Divisor (ZMod 11)) ⟨(3, 1), 2⟩
      = some ⟨⟨[4], 6⟩, ⟨[10], 4⟩, ⟨[4], 3⟩⟩ := by decide
  have hf : divEvals (⟨⟨[4], 2⟩, ⟨[6], 3⟩, ⟨[9], 3⟩⟩ : Divisor (ZMod 11)) ⟨[2], 2⟩
      = some ⟨⟨[4 * (2 : ZMod 11)⁻¹], 0⟩, ⟨[6 * (2 : ZMod 11)⁻¹], 1⟩, ⟨[9], 3⟩⟩ := by
    rw [divEvals_intro ⟨⟨[4], 2⟩, ⟨[6], 3⟩, ⟨[9], 3⟩⟩ ⟨[2], 2⟩ rfl rfl (by decide)]
    rfl
  have hg : remove_diff (⟨⟨[4], 2⟩, ⟨[6], 2⟩, ⟨[9], 3⟩⟩ : Divisor (ZMod 11)) 1 2
      = some ⟨⟨[4 * ((((0 : Nat) : ZMod 11) - 1) * (((0 : Nat) : ZMod 11) - 2))⁻¹], 0⟩,
              ⟨[6 * ((((0 : Nat) : ZMod 11) - 1) * (((0 : Nat) : ZMod 11) - 2))⁻¹], 0⟩,
              ⟨[9], 3⟩⟩ := by
    rw [remove_diff_intro ⟨⟨[4], 2⟩, ⟨[6], 2⟩, ⟨[9], 3⟩⟩ 1 2 rfl
      (by simp [diffDenom]; decide)]
    rfl
  have hrdM : remove_diff (⟨⟨[4], 6⟩, ⟨[10], 4⟩, ⟨[4], 3⟩⟩ : Divisor (ZMod 11)) 1 2
      = some ⟨⟨[4 * ((((0 : Nat) : ZMod 11) - 1) * (((0 : Nat) : ZMod 11) - 2))⁻¹], 4⟩,
              ⟨[10 * ((((0 : Nat) : ZMod 11) - 1) * (((0 : Nat) : ZMod 11) - 2))⁻¹], 2⟩,
              ⟨[4], 3⟩⟩ := by
    rw [remove_diff_intro ⟨⟨[4], 6⟩, ⟨[10], 4⟩, ⟨[4], 3⟩⟩ 1 2 rfl
      (by simp [diffDenom]; decide)]
    rfl
  have hM : merge (⟨⟨[3], 0⟩, ⟨[5], 0⟩, ⟨[4], 3⟩⟩ : Divisor (ZMod 11))
      ⟨⟨[7], 0⟩, ⟨[1], 0⟩, ⟨[4], 3⟩⟩ ⟨(3, 1), 2⟩ (1, 2)
      = some ⟨⟨[4 * ((((0 : Nat) : ZMod 11) - 1) * (((0 : Nat) : ZMod 11) - 2))⁻¹], 4⟩,
              ⟨[10 * ((((0 : Nat) : ZMod 11) - 1) * (((0 : Nat) : ZMod 11) - 2))⁻¹], 2⟩,
              ⟨[4], 3⟩⟩ := by
    unfold merge
    rw [hm]
    simp only [Option.bind_eq_bind, Option.some_bind]
    rw [he]
    simp only [Option.some_bind]
    exact hrdM
  exact C9_frame_effects
    ⟨⟨[3], 0⟩, ⟨[5], 0⟩, ⟨[4], 3⟩⟩ ⟨⟨[7], 0⟩, ⟨[1], 0⟩, ⟨[4], 3⟩⟩
    ⟨⟨[8], 3⟩, ⟨[5], 0⟩, ⟨[4], 3⟩⟩ hm
    ⟨⟨[8], 3⟩, ⟨[5], 0⟩, ⟨[4], 3⟩⟩ ⟨(3, 1), 2⟩ ⟨⟨[4], 6⟩, ⟨[10], 4⟩, ⟨[4], 3⟩⟩ he
    ⟨⟨[4], 2⟩, ⟨[6], 3⟩, ⟨[9], 3⟩⟩ ⟨[2], 2⟩
    ⟨⟨[4 * (2 : ZMod 11)⁻¹], 0⟩, ⟨[6 * (2 : ZMod 11)⁻¹], 1⟩, ⟨[9], 3⟩⟩ hf
    ⟨⟨[4], 2⟩, ⟨[6], 2⟩, ⟨[9], 3⟩⟩ 1 2
    ⟨⟨[4 * ((((0 : Nat) : ZMod 11) - 1) * (((0 : Nat) : ZMod 11) - 2))⁻¹], 0⟩,
     ⟨[6 * ((((0 : Nat) : ZMod 11) - 1) * (((0 : Nat) : ZMod 11) - 2))⁻¹], 0⟩,
     ⟨[9], 3⟩⟩ hg
    ⟨⟨[3], 0⟩, ⟨[5], 0⟩, ⟨[4], 3⟩⟩ ⟨⟨[7], 0⟩, ⟨[1], 0⟩, ⟨[4], 3⟩⟩ ⟨(3, 1), 2⟩ 1 2
    ⟨⟨[4 * ((((0 : Nat) : ZMod 11) - 1) * (((0 : Nat) : ZMod 11) - 2))⁻¹], 4⟩,
     ⟨[10 * ((((0 : Nat) : ZMod 11) - 1) * (((0 : Nat) : ZMod 11) - 2))⁻¹], 2⟩,
     ⟨[4], 3⟩⟩ hM

/-- C10: remove_diff never checks that x1, x2 avoid the sample domain:
if one of them is the field image of a sample index i, the denominator
table holds a zero at i, a non-invertible element reaches the batched
inversion, and the operation aborts without computing any quotient. -/
theorem C10_no_domain_check (d : Divisor F) (i : Nat) (x1 x2 : F)
    (hi : i < d.a.evals.length) (hx : x1 = (i : F) ∨ x2 = (i : F)) :
    (diffDenom d.a.evals.length x1 x2).getD i 0 = 0
    ∧ ¬ IsUnit ((diffDenom d.a.evals.length x1 x2).getD i 0)
    ∧ remove_diff d x1 x2 = none := by
  have hzero : ((i : F) - x1) * ((i : F) - x2) = 0 := by
    rcases hx with h | h <;> rw [h] <;> simp
  have hdg : (diffDenom d.a.evals.length x1 x2).getD i 0 = 0 := by
    rw [List.getD_eq_getElem?_getD, diffDenom_getElem? hi, hzero]
    rfl
  have hmem : (0 : F) ∈ diffDenom d.a.evals.length x1 x2 := by
    unfold diffDenom
    rw [← hzero]
    exact List.mem_map_of_mem _ (List.mem_range.mpr hi)
  refine ⟨hdg, ?_, ?_⟩
  · rw [hdg]
    exact not_isUnit_zero
  · unfold remove_diff
    split
    · unfold divEvals
      rw [if_neg]
      rintro ⟨h1, h2, h3⟩
      exact h3 0 hmem rfl
    · rfl

/-- Witness for C10: with one sample and x1 the image of index 0, the
denominator vanishes there and remove_diff aborts. -/
theorem C10_no_domain_check_witness :
    (diffDenom 1 (0 : ZMod 11) 5).getD 0 0 = 0
    ∧ ¬ IsUnit ((diffDenom 1 (0 : ZMod 11) 5).getD 0 0)
    ∧ remove_diff (⟨⟨[1], 0⟩, ⟨[1], 0⟩, ⟨[1], 0⟩⟩ : Divisor (ZMod 11)) 0 5 = none :=
  C10_no_domain_check ⟨⟨[1], 0⟩, ⟨[1], 0⟩, ⟨[1], 0⟩⟩ 0 0 5 (by decide)
    (Or.inl (by decide))

/-- Fourth finite difference at 0 of any polynomial of degree at most 3
vanishes: this is what lets a five-sample table certify that no cubic
interpolates it. -/
lemma fourth_diff_vanishes {R : Type} [CommRing R] (p : Polynomial R)
    (h : p.natDegree ≤ 3) :
    p.eval 4 - 4 * p.eval 3 + 6 * p.eval 2 - 4 * p.eval 1 + p.eval 0 = 0 := by
  have h4 : p.natDegree < 4 := Nat.lt_succ_of_le h
  rw [Polynomial.eval_eq_sum_range' h4 4, Polynomial.eval_eq_sum_range' h4 3,
      Polynomial.eval_eq_sum_range' h4 2, Polynomial.eval_eq_sum_range' h4 1,
      Polynomial.eval_eq_sum_range' h4 0]
  simp [Finset.sum_range_succ]
  ring

lemma no_cubic_matches_table :
    ¬ ∃ p : Polynomial (ZMod 11), p.natDegree ≤ 3
        ∧ ∀ i : Nat, i < 5 →
            p.eval ((i : ZMod 11)) = ([0, 1, 5, 4, 3] : List (ZMod 11)).getD i 0 := by
  rintro ⟨p, hdeg, hev⟩
  have h0 := hev 0 (by norm_num)
  have h1 := hev 1 (by norm_num)
  have h2 := hev 2 (by norm_num)
  have h3 := hev 3 (by norm_num)
  have h4 := hev 4 (by norm_num)
  simp at h0 h1 h2 h3 h4
  have hd := fourth_diff_vanishes p hdeg
  rw [h0, h1, h2, h3, h4] at hd
  exact absurd hd (by decide)

/-- C2 fails on the code: a counterexample.  The input divisor holds
exact evaluations at samples 0..4 of polynomials within bounds (A = 1
of degree 0, B = X of degree 1, modulus = X^3 of degree 3), mixed
multiplication by the linear divisor with slope 0, intercept 0 and
scalar 1 succeeds, its output A table is the evaluation of X^4 with
tracked bound 3 = max(da, da + 3) because line 205 of divisor.rs reads
db from self.a.degree, yet no polynomial of degree at most 3 matches
those five output samples: the tracked bound underestimates. -/
theorem C2_degree_bound_underestimate :
    smallMul (⟨⟨[1, 1, 1, 1, 1], 0⟩, ⟨[0, 1, 2, 3, 4], 1⟩,
               ⟨[0, 1, 8, 5, 9], 3⟩⟩ : Divisor (ZMod 11)) ⟨(0, 0), 1⟩
      = some ⟨⟨[0, 1, 5, 4, 3], 3⟩, ⟨[1, 1, 1, 1, 1], 1⟩, ⟨[0, 1, 8, 5, 9], 3⟩⟩
    ∧ ((1 : Polynomial (ZMod 11)).natDegree ≤ 0
       ∧ ∀ i : Nat, i < 5 → (1 : Polynomial (ZMod 11)).eval ((i : ZMod 11))
           = ([1, 1, 1, 1, 1] : List (ZMod 11)).getD i 0)
    ∧ ((Polynomial.X : Polynomial (ZMod 11)).natDegree ≤ 1
       ∧ ∀ i : Nat, i < 5 → (Polynomial.X : Polynomial (ZMod 11)).eval ((i : ZMod 11))
           = ([0, 1, 2, 3, 4] : List (ZMod 11)).getD i 0)
    ∧ ((Polynomial.X ^ 3 : Polynomial (ZMod 11)).natDegree ≤ 3
       ∧ ∀ i : Nat, i < 5 → (Polynomial.X ^ 3 : Polynomial (ZMod 11)).eval ((i : ZMod 11))
           = ([0, 1, 8, 5, 9] : List (ZMod 11)).getD i 0)
    ∧ ¬ ∃ p : Polynomial (ZMod 11), p.natDegree ≤ 3
        ∧ ∀ i : Nat, i < 5 →
            p.eval ((i : ZMod 11)) = ([0, 1, 5, 4, 3] : List (ZMod 11)).getD i 0 := by
  refine ⟨by decide, ⟨by simp, ?_⟩, ⟨by simp, ?_⟩, ⟨by simp [Polynomial.natDegree_X_pow], ?_⟩,
    no_cubic_matches_table⟩
  · intro i hi
    interval_cases i <;> simp
  · intro i hi
    interval_cases i <;> simp
  · intro i hi
    interval_cases i <;> simp <;> decide

/-- C3 fails on the code: line 205 of divisor.rs reads db from
self.a.degree, so with A bound 0 and B bound 5 the mixed multiplication
tracks output bounds (3, 1) = (max(0, 0 + 3), max(0, 1 + 0)) instead of
the claimed (max(0, 5 + 3), max(0, 5 + 1)) = (8, 6). -/
theorem C3_mixed_mul_degree_update_bug :
    smallMul (⟨⟨[1, 1, 1, 1, 1, 1], 0⟩, ⟨[0, 1, 2, 3, 4, 5], 5⟩,
               ⟨[0, 1, 8, 5, 9, 4], 3⟩⟩ : Divisor (ZMod 11)) ⟨(0, 0), 0⟩
      = some ⟨⟨[0, 0, 0, 0, 0, 0], 3⟩, ⟨[0, 0, 0, 0, 0, 0], 1⟩,
              ⟨[0, 1, 8, 5, 9, 4], 3⟩⟩
    ∧ 3 ≠ Nat.max 0 (5 + 3)
    ∧ 1 ≠ Nat.max 0 (5 + 1) :=
  ⟨by decide, by decide, by decide⟩

end Spec2Proof
